import Mathlib

/-!
Verification of the challenge lifecycle and scoring engine of the
discord-judge-bot repository, against its natural-language specification.

Definitions are shallow embeddings of the JavaScript source:
numbers are modelled with Nat / Int / Rat (the arithmetic performed by the
code stays in a range where IEEE doubles behave like exact rationals for
the operations used), strings with Lean String or List Char, JavaScript
records with structures in which an absent key is `none` or `false`, and
fallible paths with Except.
-/

namespace JudgeBot

/- ===== Points calculator: src/judge-bot/services/points.js ===== -/

/-- Configuration constants read by the PointsCalculator constructor
(points.js lines 13-18); defaults 100 / 10 / 5. -/
structure PointsConfig where
  startingPoints : ℕ
  hintBasePenalty : ℕ
  hintPenaltyIncrease : ℕ
  deriving Repr, DecidableEq

/-- The configuration shipped in config/bot.yaml (also the constructor defaults). -/
def defaultPointsConfig : PointsConfig :=
  { startingPoints := 100, hintBasePenalty := 10, hintPenaltyIncrease := 5 }

/-- The hint-deduction loop of calculatePoints (points.js lines 34-40):
each hint i costs hintBasePenalty + i * hintPenaltyIncrease, summed. -/
def hintDeduction (cfg : PointsConfig) : ℕ → ℕ
  | 0 => 0
  | n + 1 => hintDeduction cfg n + (cfg.hintBasePenalty + n * cfg.hintPenaltyIncrease)

/-- Math.ceil(startingPoints * 0.1) (points.js line 46). -/
def minPointsThreshold (cfg : PointsConfig) : ℤ :=
  ⌈(cfg.startingPoints : ℚ) * (1 / 10)⌉

/-- The value of the points variable after the deduction and the
minimum-threshold clamp (points.js lines 43-47). -/
def preBonusPoints (cfg : PointsConfig) (hintsUsed : ℕ) : ℤ :=
  max ((cfg.startingPoints : ℤ) - hintDeduction cfg hintsUsed) (minPointsThreshold cfg)

/-- The bonusFactor of points.js lines 52-58: table for difficulties 2-4,
fallback (difficulty - 1) * 0.1 otherwise. -/
def bonusFactor (difficulty : ℕ) : ℚ :=
  if difficulty = 2 then 2 / 10
  else if difficulty = 3 then 5 / 10
  else if difficulty = 4 then 1
  else ((difficulty : ℚ) - 1) * (1 / 10)

/-- JavaScript `game.difficulty || 1` (points.js line 31): a missing or
zero difficulty counts as 1. -/
def jsOrOne : Option ℕ → ℕ
  | none => 1
  | some n => if n = 0 then 1 else n

/-- PointsCalculator.calculatePoints (points.js lines 26-63), with the
difficulty taken as the game record's optional difficulty field. -/
def calculatePoints (cfg : PointsConfig) (hintsUsed : ℕ) (difficulty : Option ℕ) : ℤ :=
  let d := jsOrOne difficulty
  if 1 < d then ⌈(preBonusPoints cfg hintsUsed : ℚ) * (1 + bonusFactor d)⌉
  else preBonusPoints cfg hintsUsed

/-- PointsCalculator.calculateNextHintCost (points.js lines 70-72). -/
def calculateNextHintCost (cfg : PointsConfig) (hintsUsed : ℕ) : ℕ :=
  cfg.hintBasePenalty + hintsUsed * cfg.hintPenaltyIncrease

/- ===== The reference formula of the spec (claim C1) ===== -/

/-- Reference cumulative deduction from the spec: sum over k = 0..hintsUsed-1
of hint_base_penalty + k * hint_penalty_increase. -/
def specDeduction (cfg : PointsConfig) (hintsUsed : ℕ) : ℕ :=
  ∑ k in Finset.range hintsUsed, (cfg.hintBasePenalty + k * cfg.hintPenaltyIncrease)

/-- Reference difficulty bonus multiplier from the spec: difficulty 1 gives 1.0,
2 gives 1.2, 3 gives 1.5, 4 gives 2.0, above 4 gives 1 + (difficulty - 1) * 0.1. -/
def specBonusMultiplier (difficulty : ℕ) : ℚ :=
  if difficulty = 1 then 1
  else if difficulty = 2 then 12 / 10
  else if difficulty = 3 then 15 / 10
  else if difficulty = 4 then 2
  else 1 + ((difficulty : ℚ) - 1) / 10

/-- Reference points formula from the spec: raw score is
max(starting_points - deduction, ceil(starting_points * 0.1)), multiplied by
the difficulty bonus and rounded up. -/
def specPoints (cfg : PointsConfig) (hintsUsed : ℕ) (difficulty : ℕ) : ℤ :=
  let ded := specDeduction cfg hintsUsed
  let raw : ℤ := max ((cfg.startingPoints : ℤ) - ded) ⌈(cfg.startingPoints : ℚ) * (1 / 10)⌉
  ⌈(raw : ℚ) * specBonusMultiplier difficulty⌉

lemma hintDeduction_eq_specDeduction (cfg : PointsConfig) (n : ℕ) :
    hintDeduction cfg n = specDeduction cfg n := by
  induction n with
  | zero => simp [hintDeduction, specDeduction]
  | succ k ih => simp [hintDeduction, specDeduction, Finset.sum_range_succ, ih]

lemma preBonusPoints_eq_raw (cfg : PointsConfig) (h : ℕ) :
    preBonusPoints cfg h =
      max ((cfg.startingPoints : ℤ) - specDeduction cfg h)
        ⌈(cfg.startingPoints : ℚ) * (1 / 10)⌉ := by
  simp [preBonusPoints, minPointsThreshold, hintDeduction_eq_specDeduction]

lemma one_add_bonusFactor (d : ℕ) (hd : 2 ≤ d) :
    1 + bonusFactor d = specBonusMultiplier d := by
  have h1 : d ≠ 1 := by omega
  by_cases h2 : d = 2
  · subst h2; norm_num [bonusFactor, specBonusMultiplier]
  · by_cases h3 : d = 3
    · subst h3; norm_num [bonusFactor, specBonusMultiplier]
    · by_cases h4 : d = 4
      · subst h4; norm_num [bonusFactor, specBonusMultiplier]
      · simp only [bonusFactor, specBonusMultiplier, h1, h2, h3, h4, if_false]
        ring

/-- C1: for every hints_used and every difficulty at least 1, calculatePoints
agrees with the spec's reference formula (deduction sum, 10 percent floor,
difficulty multiplier, rounded up); and with constants 100/10/5,
difficulty 1 with 2 hints used yields 75 points. -/
theorem calculatePoints_eq_specPoints :
    (∀ (cfg : PointsConfig) (h d : ℕ), 1 ≤ d →
      calculatePoints cfg h (some d) = specPoints cfg h d) ∧
    calculatePoints defaultPointsConfig 2 (some 1) = 75 := by
  constructor
  · intro cfg h d hd
    have hjs : jsOrOne (some d) = d := by
      simp only [jsOrOne]
      rw [if_neg (by omega : ¬ d = 0)]
    simp only [calculatePoints, specPoints, hjs]
    rw [← preBonusPoints_eq_raw]
    by_cases h1 : d = 1
    · subst h1
      simp [specBonusMultiplier, Int.ceil_intCast]
    · have hlt : 1 < d := by omega
      simp only [hlt, if_true]
      rw [one_add_bonusFactor d (by omega)]
  · have hded : hintDeduction defaultPointsConfig 2 = 25 := by rfl
    simp only [calculatePoints, preBonusPoints, minPointsThreshold, jsOrOne, hded]
    norm_num [defaultPointsConfig]

/-- Witness for C1 at a concrete input with the hypothesis discharged. -/
theorem calculatePoints_eq_specPoints_witness :
    (1 : ℕ) ≤ 3 ∧ calculatePoints defaultPointsConfig 2 (some 3) = specPoints defaultPointsConfig 2 3 :=
  ⟨by decide, calculatePoints_eq_specPoints.1 defaultPointsConfig 2 3 (by decide)⟩

/- ===== Claim C7: shape of the points function ===== -/

lemma hintDeduction_lt_succ (cfg : PointsConfig) (hb : 1 ≤ cfg.hintBasePenalty) (h : ℕ) :
    hintDeduction cfg h < hintDeduction cfg (h + 1) := by
  simp only [hintDeduction]
  omega

lemma hintDeduction_le_succ (cfg : PointsConfig) (h : ℕ) :
    hintDeduction cfg h ≤ hintDeduction cfg (h + 1) := by
  simp only [hintDeduction]
  omega

lemma minPointsThreshold_nonneg (cfg : PointsConfig) : 0 ≤ minPointsThreshold cfg :=
  Int.ceil_nonneg (by positivity)

lemma minPointsThreshold_le_preBonusPoints (cfg : PointsConfig) (h : ℕ) :
    minPointsThreshold cfg ≤ preBonusPoints cfg h :=
  le_max_right _ _

lemma preBonusPoints_succ_lt (cfg : PointsConfig) (hb : 1 ≤ cfg.hintBasePenalty) (h : ℕ)
    (hgt : minPointsThreshold cfg < preBonusPoints cfg h) :
    preBonusPoints cfg (h + 1) < preBonusPoints cfg h := by
  unfold preBonusPoints at *
  set m := minPointsThreshold cfg with hm
  set A := (cfg.startingPoints : ℤ) - hintDeduction cfg h with hA
  have hded : (hintDeduction cfg h : ℤ) < hintDeduction cfg (h + 1) := by
    exact_mod_cast hintDeduction_lt_succ cfg hb h
  have hmA : m < A := by
    by_contra hc
    push_neg at hc
    rw [max_eq_right hc] at hgt
    exact lt_irrefl _ hgt
  have hA' : (cfg.startingPoints : ℤ) - hintDeduction cfg (h + 1) ≤ A - 1 := by omega
  calc max ((cfg.startingPoints : ℤ) - hintDeduction cfg (h + 1)) m
      ≤ max (A - 1) m := max_le_max hA' (le_refl m)
    _ = A - 1 := max_eq_left (by omega)
    _ < A := by omega
    _ = max A m := (max_eq_left (le_of_lt hmA)).symm

lemma preBonusPoints_succ_eq (cfg : PointsConfig) (h : ℕ)
    (heq : preBonusPoints cfg h = minPointsThreshold cfg) :
    preBonusPoints cfg (h + 1) = minPointsThreshold cfg := by
  unfold preBonusPoints at *
  set m := minPointsThreshold cfg with hm
  set A := (cfg.startingPoints : ℤ) - hintDeduction cfg h with hA
  have hmono : (hintDeduction cfg h : ℤ) ≤ hintDeduction cfg (h + 1) := by
    exact_mod_cast hintDeduction_le_succ cfg h
  have hAm : A ≤ m := by
    by_contra hc
    push_neg at hc
    rw [max_eq_left (le_of_lt hc)] at heq
    omega
  exact max_eq_right (by omega)

lemma ceil_mul_strictMono (f : ℚ) (hf : 1 ≤ f) {p q : ℤ} (hpq : p < q) :
    ⌈(p : ℚ) * f⌉ < ⌈(q : ℚ) * f⌉ := by
  have hp1 : (p : ℚ) ≤ (q : ℚ) - 1 := by
    have : p ≤ q - 1 := by omega
    exact_mod_cast this
  have h1 : (p : ℚ) * f ≤ ((q : ℚ) - 1) * f := by
    apply mul_le_mul_of_nonneg_right hp1 (by linarith)
  have h2 : ((q : ℚ) - 1) * f ≤ (q : ℚ) * f - 1 := by nlinarith
  have h3 : ⌈(p : ℚ) * f⌉ ≤ ⌈(q : ℚ) * f - (1 : ℤ)⌉ := by
    apply Int.ceil_le_ceil
    push_cast
    linarith
  rw [Int.ceil_sub_int] at h3
  omega

lemma one_le_one_add_bonusFactor (d : ℕ) (hd2 : 2 ≤ d) (hd4 : d ≤ 4) :
    1 ≤ 1 + bonusFactor d := by
  interval_cases d <;> norm_num [bonusFactor]

/-- C7: for all hints_used and difficulty in 1..4, the calculatePoints output is
a non-negative integer, its pre-bonus value is at least the 10 percent floor,
and the output strictly decreases with each extra hint while the pre-bonus
value sits above the floor, and is constant once the floor is reached. -/
theorem calculatePoints_props (cfg : PointsConfig) (hb : 1 ≤ cfg.hintBasePenalty)
    (d : ℕ) (hd1 : 1 ≤ d) (hd4 : d ≤ 4) (h : ℕ) :
    0 ≤ calculatePoints cfg h (some d) ∧
    minPointsThreshold cfg ≤ preBonusPoints cfg h ∧
    (minPointsThreshold cfg < preBonusPoints cfg h →
      calculatePoints cfg (h + 1) (some d) < calculatePoints cfg h (some d)) ∧
    (preBonusPoints cfg h = minPointsThreshold cfg →
      calculatePoints cfg (h + 1) (some d) = calculatePoints cfg h (some d)) := by
  have hjs : jsOrOne (some d) = d := by
    simp only [jsOrOne]
    rw [if_neg (by omega : ¬ d = 0)]
  have hpre0 : (0 : ℤ) ≤ preBonusPoints cfg h :=
    le_trans (minPointsThreshold_nonneg cfg) (minPointsThreshold_le_preBonusPoints cfg h)
  by_cases h1 : d = 1
  · subst h1
    simp only [calculatePoints, hjs, lt_irrefl, if_false]
    refine ⟨hpre0, minPointsThreshold_le_preBonusPoints cfg h, ?_, ?_⟩
    · intro hgt
      exact preBonusPoints_succ_lt cfg hb h hgt
    · intro heq
      rw [preBonusPoints_succ_eq cfg h heq, heq]
  · have hlt : 1 < d := by omega
    have hF : 1 ≤ 1 + bonusFactor d := one_le_one_add_bonusFactor d (by omega) hd4
    simp only [calculatePoints, hjs, hlt, if_true]
    refine ⟨?_, minPointsThreshold_le_preBonusPoints cfg h, ?_, ?_⟩
    · apply Int.ceil_nonneg
      have : (0 : ℚ) ≤ (preBonusPoints cfg h : ℚ) := by exact_mod_cast hpre0
      nlinarith
    · intro hgt
      exact ceil_mul_strictMono _ hF (preBonusPoints_succ_lt cfg hb h hgt)
    · intro heq
      rw [preBonusPoints_succ_eq cfg h heq, heq]

/-- Witness for C7 at the shipped configuration, difficulty 2, zero hints. -/
theorem calculatePoints_props_witness :
    0 ≤ calculatePoints defaultPointsConfig 0 (some 2) ∧
    minPointsThreshold defaultPointsConfig ≤ preBonusPoints defaultPointsConfig 0 ∧
    (minPointsThreshold defaultPointsConfig < preBonusPoints defaultPointsConfig 0 →
      calculatePoints defaultPointsConfig 1 (some 2) < calculatePoints defaultPointsConfig 0 (some 2)) ∧
    (preBonusPoints defaultPointsConfig 0 = minPointsThreshold defaultPointsConfig →
      calculatePoints defaultPointsConfig 1 (some 2) = calculatePoints defaultPointsConfig 0 (some 2)) :=
  calculatePoints_props defaultPointsConfig (by decide) 2 (by decide) (by decide) 0

/- ===== Challenge records and the lifecycle handlers =====
   from src/judge-bot/commands/maker-manage.js. A YAML game record is a
   JavaScript object; an absent key is modelled by none (for data fields)
   or false (for the lifecycle flags, which are only ever set to true or
   deleted). -/

/-- A maker game record as stored in config/games/<id>.yaml. -/
structure Game where
  name : String
  description : String
  author : String
  answer : List Char
  difficulty : Option ℕ
  reward_type : Option String
  badge_class_id : Option String
  reward_text : Option String
  reward_description : Option String
  hints : List String
  owner_id : Option String
  creation_date : Option String
  last_modified : Option String
  approved : Bool
  approval_date : Option String
  approver_id : Option String
  approver_name : Option String
  rejected : Bool
  rejection_date : Option String
  rejection_reason : Option String
  rejector_id : Option String
  rejector_name : Option String
  pending_review : Bool
  edit_reason : Option String
  disabled : Bool
  disable_reason : Option String
  disable_date : Option String
  disabled_by : Option String
  deriving Repr, DecidableEq

/-- JavaScript truthiness of an optional string field: present and non-empty. -/
def strTruthy : Option String → Bool
  | none => false
  | some s => !s.isEmpty

/-- JavaScript strict comparison reward_type === t. -/
def rewardTypeIs (g : Game) (t : String) : Bool :=
  g.reward_type == some t

inductive ApproveError
  | alreadyApproved
  | currentlyDisabled
  deriving Repr, DecidableEq

/-- handleApproveGame (maker-manage.js lines 450-654), the state-changing
decision core: refuse if already approved (line 466) or disabled (line 475);
otherwise set the approval fields and conditionally delete the other
lifecycle fields (lines 540-563). No reward-payload condition exists:
a missing payload only adds a warning field to the confirmation embed
(lines 496-503). -/
def handleApproveGame (g : Game) (approverId approverName date : String) :
    Except ApproveError Game :=
  if g.approved then .error .alreadyApproved
  else if g.disabled then .error .currentlyDisabled
  else
    let g1 := { g with approved := true, approval_date := some date,
                       approver_id := some approverId, approver_name := some approverName }
    let g2 := if g1.disabled then
        { g1 with disabled := false, disable_reason := none } else g1
    let g3 := if g2.rejected then
        { g2 with rejected := false, rejection_reason := none } else g2
    let g4 := if g3.pending_review then
        { g3 with pending_review := false, edit_reason := none } else g3
    .ok g4

/-- handleRejectGame (maker-manage.js lines 664-823), the state-changing core
(lines 725-756): set the rejection fields, conditionally delete approved and
approval_date, conditionally delete pending_review. It has no state guard at
all (only a not-found check before it) and never touches the disabled flag. -/
def handleRejectGame (g : Game) (reason rejectorId rejectorName date : String) : Game :=
  let g1 := { g with rejected := true, rejection_date := some date,
                     rejection_reason := some reason,
                     rejector_id := some rejectorId, rejector_name := some rejectorName }
  let g2 := if g1.approved then
      { g1 with approved := false, approval_date := none } else g1
  let g3 := if g2.pending_review then { g2 with pending_review := false } else g2
  g3

inductive DisableResult
  | promptReenable
  | disabledNow (g : Game)
  deriving Repr, DecidableEq

/-- handleDisableGame (maker-manage.js lines 833-1034): an already-disabled
game is offered re-enabling instead (lines 849-933); any other game,
whatever its other flags, is disabled (lines 972-990). The approved flag is
not cleared. -/
def handleDisableGame (g : Game) (reason date disabledBy : String) : DisableResult :=
  if g.disabled then .promptReenable
  else .disabledNow { g with disabled := true, disable_reason := some reason,
                             disable_date := some date, disabled_by := some disabledBy }

/-- The re-enable button path of handleDisableGame (maker-manage.js
lines 885-913): delete the disabled flag and its metadata. -/
def handleEnableGame (g : Game) : Game :=
  { g with disabled := false, disable_reason := none, disable_date := none }

/- ===== The player-visible approved-challenge index ===== -/

/-- The non-secret projection written into config/games.yaml for each
approved game (maker-manage.js lines 1177-1197; identically index.js
lines 339-359). -/
structure CleanGame where
  name : String
  description : String
  author : String
  answer : List Char
  difficulty : ℕ
  reward_type : String
  hints : List String
  badge_class_id : Option String
  reward_text : Option String
  reward_description : Option String
  deriving Repr, DecidableEq

/-- JavaScript `gameData.reward_type || 'badgr'`: missing or empty falls back. -/
def jsOrBadgr : Option String → String
  | none => "badgr"
  | some s => if s.isEmpty then "badgr" else s

/-- The clean projection of one game record (maker-manage.js lines 1177-1197). -/
def cleanGameData (g : Game) : CleanGame :=
  { name := g.name
    description := g.description
    author := g.author
    answer := g.answer
    difficulty := jsOrOne g.difficulty
    reward_type := jsOrBadgr g.reward_type
    hints := g.hints
    badge_class_id :=
      if rewardTypeIs g "badgr" && strTruthy g.badge_class_id then g.badge_class_id else none
    reward_text :=
      if rewardTypeIs g "text" && strTruthy g.reward_text then g.reward_text else none
    reward_description :=
      if strTruthy g.reward_description then g.reward_description else none }

/-- The filter of reloadGamesConfig in maker-manage.js (lines 1141-1144):
only approved games that are neither disabled nor rejected. -/
def makerVisible (g : Game) : Bool :=
  g.approved && !g.disabled && !g.rejected

/-- reloadGamesConfig in maker-manage.js (lines 1136-1210): the rebuilt
player-visible index. existing holds the entries of the previous
config/games.yaml that are kept (those without an owner_id); the maker
records are filtered by makerVisible and projected. -/
def reloadGamesConfig (existing : List (String × CleanGame))
    (games : List (String × Game)) : List (String × CleanGame) :=
  existing ++ (games.filter (fun p => makerVisible p.2)).map
    (fun p => (p.1, cleanGameData p.2))

/-- global.reloadGamesConfig in index.js (src/unnamed/part_000 lines 315-387):
the startup rebuild of the same index. Its filter keeps every record whose
approved flag is set, with no check of the disabled or rejected flags
(line 334). -/
def globalReloadGamesConfig (games : List (String × Game)) :
    List (String × CleanGame) :=
  (games.filter (fun p => p.2.approved)).map (fun p => (p.1, cleanGameData p.2))

/-- Membership of a game id in a rebuilt index. -/
def listedIn (cfg : List (String × CleanGame)) (id : String) : Bool :=
  cfg.any (fun p => p.1 == id)

/-- A freshly created maker game (maker-manage.js lines 1517-1527): none of
the lifecycle flags is present, so the game is pending. -/
def mkPendingGame (name description : String) (answer : List Char) (difficulty : ℕ)
    (rewardType : String) (hints : List String) (owner author date : String) : Game :=
  { name := name, description := description, author := author, answer := answer,
    difficulty := some difficulty, reward_type := some rewardType,
    badge_class_id := none, reward_text := none, reward_description := none,
    hints := hints, owner_id := some owner, creation_date := some date,
    last_modified := none,
    approved := false, approval_date := none, approver_id := none, approver_name := none,
    rejected := false, rejection_date := none, rejection_reason := none,
    rejector_id := none, rejector_name := none,
    pending_review := false, edit_reason := none,
    disabled := false, disable_reason := none, disable_date := none, disabled_by := none }

/- ===== Editing (handleGameEdit, maker-manage.js lines 1680-1961) ===== -/

/-- The five fields collected by the edit modal (lines 1773-1777), already
validated (length limits, difficulty parsed into 1..4). -/
structure EditPatch where
  name : String
  description : String
  answer : List Char
  difficulty : ℕ
  hints : List String
  deriving Repr, DecidableEq

/-- The majorChange test (maker-manage.js lines 1838-1841): the stored answer,
difficulty or hints differ from the submitted values. -/
def majorChange (g : Game) (p : EditPatch) : Bool :=
  !(g.answer == p.answer) || !(g.difficulty == some p.difficulty) || !(g.hints == p.hints)

/-- The state core of handleGameEdit (maker-manage.js lines 1826-1857):
overwrite the edited fields; if the game was approved and a major field
changed, clear approved and set pending_review. -/
def handleGameEdit (g : Game) (p : EditPatch) (date : String) : Game :=
  let updated := { g with name := p.name, description := p.description,
                          answer := p.answer, difficulty := some p.difficulty,
                          hints := p.hints, last_modified := some date }
  if updated.approved then
    if majorChange g p then
      { updated with approved := false, pending_review := true,
                      edit_reason := some "Major changes require admin review" }
    else updated
  else updated

/- ===== Concrete records used by the counterexamples ===== -/

/-- A freshly created pending challenge with text reward type but no reward
payload configured yet. -/
def sampleGame : Game :=
  mkPendingGame "Cipher Quest" "Decrypt the message" ['4', '2'] 2 "text"
    ["hint one"] "owner1" "maker1" "2025-04-03"

/-- sampleGame after an admin rejection. -/
def rejectedSample : Game :=
  { sampleGame with rejected := true, rejection_reason := some "needs work",
                    rejection_date := some "2025-04-04",
                    rejector_id := some "admin1", rejector_name := some "Admin" }

/-- sampleGame after being disabled. -/
def disabledSample : Game :=
  { sampleGame with disabled := true, disable_reason := some "broken",
                    disable_date := some "2025-04-04", disabled_by := some "Admin" }

/-- sampleGame after approval (with a configured text reward). -/
def approvedSample : Game :=
  { sampleGame with reward_text := some "flag-reward",
                    approved := true, approval_date := some "2025-04-04",
                    approver_id := some "admin1", approver_name := some "Admin" }

/-- approvedSample after being disabled: the disable path keeps the approved
flag, so both flags are set. -/
def disabledApprovedSample : Game :=
  { approvedSample with disabled := true, disable_reason := some "maintenance",
                        disable_date := some "2025-04-05", disabled_by := some "Admin" }


/-- The record produced by a successful approval: the approval fields are set,
the rejected and pending_review flags end up cleared, and rejection_reason and
edit_reason are deleted only when the corresponding flag was set
(maker-manage.js lines 540-563). -/
lemma handleApproveGame_ok (g : Game) (aid an date : String)
    (h1 : g.approved = false) (h2 : g.disabled = false) :
    handleApproveGame g aid an date = .ok
      { g with approved := true, approval_date := some date,
               approver_id := some aid, approver_name := some an,
               rejected := false,
               rejection_reason := if g.rejected then none else g.rejection_reason,
               pending_review := false,
               edit_reason := if g.pending_review then none else g.edit_reason } := by
  by_cases hr : g.rejected <;> by_cases hp : g.pending_review <;>
    simp [handleApproveGame, h1, h2, hr, hp]

/- ===== Claim C2 ===== -/

/-- C2 counterexample: approving a pending challenge with no reward payload
at all (no badge_class_id, no reward_text) succeeds, where the claim says it
must fail. -/
theorem approve_without_payload_succeeds :
    strTruthy sampleGame.badge_class_id = false ∧
    strTruthy sampleGame.reward_text = false ∧
    sampleGame.approved = false ∧ sampleGame.disabled = false ∧
    (handleApproveGame sampleGame "admin1" "Admin" "2025-04-04").isOk = true :=
  ⟨rfl, rfl, rfl, rfl, rfl⟩

/-- C2 amended: the approve transition checks no reward payload (a missing
payload only produces a warning in the confirmation embed). Approving any
challenge that is not already approved and not disabled succeeds, and the
result is visible in the rebuilt approved listing; when a non-empty
reward_text is configured on a text-reward challenge it survives into the
listing's projection. -/
theorem approve_ignores_reward_payload (g : Game) (id aid an date : String)
    (hnotapproved : g.approved = false) (hnotdisabled : g.disabled = false) :
    ∃ g', handleApproveGame g aid an date = .ok g' ∧
      g'.approved = true ∧ makerVisible g' = true ∧
      listedIn (reloadGamesConfig [] [(id, g')]) id = true ∧
      (rewardTypeIs g "text" = true → strTruthy g.reward_text = true →
        (cleanGameData g').reward_text = g.reward_text) := by
  refine ⟨_, handleApproveGame_ok g aid an date hnotapproved hnotdisabled,
    rfl, ?_, ?_, ?_⟩
  · simp [makerVisible, hnotdisabled]
  · simp [listedIn, reloadGamesConfig, makerVisible, hnotdisabled]
  · intro ht hs
    simp only [rewardTypeIs] at ht
    simp [cleanGameData, rewardTypeIs, ht, hs]

/-- Witness for C2's amended theorem: a concrete pending challenge with a
text reward configured is approved and listed. -/
theorem approve_ignores_reward_payload_witness :
    ∃ g', handleApproveGame { sampleGame with reward_text := some "flag-reward" }
        "admin1" "Admin" "2025-04-04" = .ok g' ∧
      g'.approved = true ∧ makerVisible g' = true ∧
      listedIn (reloadGamesConfig [] [("cipher-quest", g')]) "cipher-quest" = true ∧
      (rewardTypeIs { sampleGame with reward_text := some "flag-reward" } "text" = true →
        strTruthy { sampleGame with reward_text := some "flag-reward" }.reward_text = true →
        (cleanGameData g').reward_text =
          { sampleGame with reward_text := some "flag-reward" }.reward_text) :=
  approve_ignores_reward_payload _ "cipher-quest" "admin1" "Admin" "2025-04-04" rfl rfl

/- ===== Claim C3 ===== -/

/-- C3 counterexample: disabling a rejected challenge succeeds (and changes
the record), and rejecting a disabled challenge succeeds, where the claim
says both must fail with InvalidStateTransition. -/
theorem illegal_transitions_succeed :
    rejectedSample.rejected = true ∧
    handleDisableGame rejectedSample "r" "2025-04-05" "Admin" =
      .disabledNow { rejectedSample with disabled := true,
                                         disable_reason := some "r",
                                         disable_date := some "2025-04-05",
                                         disabled_by := some "Admin" } ∧
    disabledSample.disabled = true ∧
    (handleRejectGame disabledSample "why" "admin1" "Admin" "2025-04-05").rejected = true ∧
    (handleRejectGame disabledSample "why" "admin1" "Admin" "2025-04-05").disabled = true :=
  ⟨rfl, rfl, rfl, rfl, rfl⟩

/-- C3 amended: the code implements no InvalidStateTransition error. The only
transition guards are on approval: approving an already-approved challenge
fails, approving a disabled challenge fails. Disabling succeeds from every
not-disabled state (including rejected), an already-disabled challenge is
offered re-enabling instead, and rejection succeeds from every state
(including disabled). -/
theorem transition_guards (g : Game) (aid an date reason : String) :
    (g.approved = true → handleApproveGame g aid an date = .error .alreadyApproved) ∧
    (g.approved = false → g.disabled = true →
      handleApproveGame g aid an date = .error .currentlyDisabled) ∧
    (g.disabled = true → handleDisableGame g reason date aid = .promptReenable) ∧
    (g.disabled = false → handleDisableGame g reason date aid =
      .disabledNow { g with disabled := true,
                            disable_reason := some reason,
                            disable_date := some date,
                            disabled_by := some aid }) ∧
    (handleRejectGame g reason aid an date).rejected = true := by
  refine ⟨?_, ?_, ?_, ?_, ?_⟩
  · intro h; simp [handleApproveGame, h]
  · intro h1 h2; simp [handleApproveGame, h1, h2]
  · intro h; simp [handleDisableGame, h]
  · intro h; simp [handleDisableGame, h]
  · by_cases ha : g.approved <;> by_cases hp : g.pending_review <;>
      simp [handleRejectGame, ha, hp]

/-- Witness for C3's amended theorem: disabling the concrete rejected
challenge goes through. -/
theorem transition_guards_witness :
    handleDisableGame rejectedSample "r2" "2025-04-06" "admin1" =
      .disabledNow { rejectedSample with disabled := true,
                                         disable_reason := some "r2",
                                         disable_date := some "2025-04-06",
                                         disabled_by := some "admin1" } :=
  (transition_guards rejectedSample "admin1" "Admin" "2025-04-06" "r2").2.2.2.1 rfl

/- ===== Claim C4 ===== -/

/-- C4: the startup rebuild in index.js filters only on the approved flag, so
a challenge that was approved and then disabled (the disable path keeps the
approved flag) is listed in the player-visible index it builds, while the
rebuild in maker-manage.js correctly excludes it. Evaluation at the failing
input. -/
theorem disabled_game_listed_by_startup_rebuild :
    handleDisableGame approvedSample "maintenance" "2025-04-05" "Admin" =
      .disabledNow disabledApprovedSample ∧
    disabledApprovedSample.approved = true ∧
    disabledApprovedSample.disabled = true ∧
    listedIn (globalReloadGamesConfig [("cipher-quest", disabledApprovedSample)])
      "cipher-quest" = true ∧
    listedIn (reloadGamesConfig [] [("cipher-quest", disabledApprovedSample)])
      "cipher-quest" = false :=
  ⟨rfl, rfl, rfl, rfl, rfl⟩

/- ===== Claim C5 ===== -/

/-- C5: editing an approved challenge forces it back to pending exactly when
the patch changes the answer, the difficulty or the hints; a patch that
changes only the other fields (name, description) leaves it approved. -/
theorem edit_approved_forces_pending (g : Game) (p : EditPatch) (date : String)
    (happ : g.approved = true) :
    ((g.answer ≠ p.answer ∨ g.difficulty ≠ some p.difficulty ∨ g.hints ≠ p.hints) →
      (handleGameEdit g p date).approved = false ∧
      (handleGameEdit g p date).pending_review = true) ∧
    (g.answer = p.answer → g.difficulty = some p.difficulty → g.hints = p.hints →
      (handleGameEdit g p date).approved = true ∧
      (handleGameEdit g p date).pending_review = g.pending_review) := by
  constructor
  · intro hmaj
    have hmc : majorChange g p = true := by
      simp only [majorChange, Bool.or_eq_true, Bool.not_eq_true', beq_eq_false_iff_ne]
      rcases hmaj with h | h | h
      · exact Or.inl (Or.inl h)
      · exact Or.inl (Or.inr h)
      · exact Or.inr h
    simp [handleGameEdit, happ, hmc]
  · intro h1 h2 h3
    have hmc : majorChange g p = false := by
      simp [majorChange, h1, h2, h3]
    simp [handleGameEdit, happ, hmc]

/-- Witness for C5: editing the concrete approved challenge with a changed
answer clears approval and sets pending_review. -/
theorem edit_approved_forces_pending_witness :
    (approvedSample.answer ≠ ['9'] ∨
      approvedSample.difficulty ≠ some 2 ∨ approvedSample.hints ≠ ["hint one"]) ∧
    (handleGameEdit approvedSample
        { name := "Cipher Quest", description := "Decrypt the message",
          answer := ['9'], difficulty := 2, hints := ["hint one"] }
        "2025-04-06").approved = false ∧
    (handleGameEdit approvedSample
        { name := "Cipher Quest", description := "Decrypt the message",
          answer := ['9'], difficulty := 2, hints := ["hint one"] }
        "2025-04-06").pending_review = true := by
  refine ⟨Or.inl (by decide), ?_, ?_⟩
  · exact ((edit_approved_forces_pending approvedSample
      { name := "Cipher Quest", description := "Decrypt the message",
        answer := ['9'], difficulty := 2, hints := ["hint one"] }
      "2025-04-06" rfl).1 (Or.inl (by decide))).1
  · exact ((edit_approved_forces_pending approvedSample
      { name := "Cipher Quest", description := "Decrypt the message",
        answer := ['9'], difficulty := 2, hints := ["hint one"] }
      "2025-04-06" rfl).1 (Or.inl (by decide))).2

/- ===== Claim C6 ===== -/

/-- C6 counterexample: after approved to disabled, the record is marked both
approved and disabled at once, where the claim says it must not be. -/
theorem disable_keeps_approved_flag :
    approvedSample.approved = true ∧
    handleDisableGame approvedSample "maintenance" "2025-04-05" "Admin" =
      .disabledNow disabledApprovedSample ∧
    disabledApprovedSample.approved = true ∧
    disabledApprovedSample.disabled = true ∧
    (handleRejectGame approvedSample "bad" "admin1" "Admin" "2025-04-05").approver_id
      = some "admin1" :=
  ⟨rfl, rfl, rfl, rfl, rfl⟩

/-- C6 amended: only the approve transition yields exactly one state flag
(approved set, rejected, disabled and pending_review all cleared). Rejection
sets rejected, clears approved, approval_date and pending_review, but keeps
approver_id untouched and never clears the disabled flag. Disabling sets
disabled while keeping the approved flag, so the record can carry both flags
at once (the maker listing filter still excludes it). -/
theorem lifecycle_flags_after_transitions (g : Game) (aid an date reason : String) :
    (g.approved = false → g.disabled = false →
      ∃ g', handleApproveGame g aid an date = .ok g' ∧ g'.approved = true ∧
        g'.rejected = false ∧ g'.disabled = false ∧ g'.pending_review = false) ∧
    ((handleRejectGame g reason aid an date).rejected = true ∧
     (handleRejectGame g reason aid an date).approved = false ∧
     (handleRejectGame g reason aid an date).pending_review = false ∧
     (g.approved = true → (handleRejectGame g reason aid an date).approval_date = none) ∧
     (handleRejectGame g reason aid an date).approver_id = g.approver_id ∧
     (handleRejectGame g reason aid an date).disabled = g.disabled) ∧
    (g.disabled = false →
      ∃ g', handleDisableGame g reason date aid = .disabledNow g' ∧
        g'.disabled = true ∧ g'.approved = g.approved ∧ makerVisible g' = false) := by
  refine ⟨?_, ?_, ?_⟩
  · intro h1 h2
    exact ⟨_, handleApproveGame_ok g aid an date h1 h2, rfl, rfl, h2, rfl⟩
  · by_cases ha : g.approved <;> by_cases hp : g.pending_review <;>
      simp [handleRejectGame, ha, hp]
  · intro h
    refine ⟨{ g with disabled := true,
                     disable_reason := some reason,
                     disable_date := some date,
                     disabled_by := some aid }, ?_, rfl, rfl, ?_⟩
    · simp [handleDisableGame, h]
    · simp [makerVisible]

/-- Witness for C6's amended theorem: the concrete approved challenge, once
disabled, still carries its approved flag yet is excluded from the listing. -/
theorem lifecycle_flags_after_transitions_witness :
    ∃ g', handleDisableGame approvedSample "m" "2025-04-07" "admin1" = .disabledNow g' ∧
      g'.disabled = true ∧ g'.approved = approvedSample.approved ∧
      makerVisible g' = false :=
  (lifecycle_flags_after_transitions approvedSample "admin1" "Admin" "2025-04-07" "m").2.2 rfl

/- ===== Answer validation: src/judge-bot/utils/validation.js ===== -/

/-- The whitespace characters relevant to the JavaScript regex \s here
(space, tab, line feed, carriage return, vertical tab, form feed). -/
def jsWhitespace (c : Char) : Bool :=
  c == ' ' || c == '\t' || c == '\n' || c == '\r' || c == Char.ofNat 11 || c == Char.ofNat 12

/-- replace(/\s+/g, ' ') on a list of characters (validation.js lines 89-90):
every maximal run of whitespace becomes one space. -/
def collapseWS : List Char → List Char
  | [] => []
  | [c] => if jsWhitespace c then [' '] else [c]
  | c :: c2 :: cs =>
    if jsWhitespace c && jsWhitespace c2 then collapseWS (c2 :: cs)
    else (if jsWhitespace c then ' ' else c) :: collapseWS (c2 :: cs)

/-- Remove trailing whitespace. -/
def dropTrailingWS (l : List Char) : List Char :=
  (l.reverse.dropWhile jsWhitespace).reverse

/-- String.prototype.trim on a list of characters. -/
def trimWS (l : List Char) : List Char :=
  dropTrailingWS (l.dropWhile jsWhitespace)

/-- The normalization pipeline of isCorrectAnswer (validation.js lines 89-90):
toLowerCase, collapse whitespace runs, trim. -/
def normalizeAnswer (s : List Char) : List Char :=
  trimWS (collapseWS (s.map Char.toLower))

/-- Validation.isCorrectAnswer (validation.js lines 84-93): false when either
argument is falsy (empty), else compare the normalized forms. -/
def isCorrectAnswer (userAnswer correctAnswer : List Char) : Bool :=
  if userAnswer.isEmpty || correctAnswer.isEmpty then false
  else normalizeAnswer userAnswer == normalizeAnswer correctAnswer

/- ===== The claim's description of the normalization (C10):
   lowercase, then the sequence of whitespace-separated words joined by
   single spaces. ===== -/

/-- Maximal whitespace-free runs (words) of a character list. -/
def wordsWS : List Char → List (List Char)
  | [] => []
  | c :: cs =>
    if jsWhitespace c then wordsWS cs
    else (c :: cs.takeWhile (fun x => !jsWhitespace x)) ::
      wordsWS (cs.dropWhile (fun x => !jsWhitespace x))
termination_by l => l.length
decreasing_by
  · simp only [List.length_cons]
    omega
  · simp only [List.length_cons]
    have : (List.dropWhile (fun x => !jsWhitespace x) cs).length ≤ cs.length := by
      induction cs with
      | nil => simp [List.dropWhile]
      | cons a l ih =>
        by_cases ha : (fun x => !jsWhitespace x) a <;>
          simp [List.dropWhile, ha] <;> omega
    omega

/-- Join words with single spaces. -/
def specJoin : List (List Char) → List Char
  | [] => []
  | [w] => w
  | w :: nxt :: rest => w ++ ' ' :: specJoin (nxt :: rest)

/-- The claim's normalization, stated independently of the code's pipeline. -/
def claimNormalize (s : List Char) : List Char :=
  specJoin (wordsWS (s.map Char.toLower))

/- ===== Helper lemmas for C10 ===== -/

lemma length_dropWhile_le (p : Char → Bool) (l : List Char) :
    (l.dropWhile p).length ≤ l.length := by
  induction l with
  | nil => simp [List.dropWhile]
  | cons a t ih =>
    by_cases ha : p a <;> simp [List.dropWhile, ha] <;> omega

lemma dropWhile_all_false (p : Char → Bool) (l : List Char)
    (h : ∀ c ∈ l, p c = false) : l.dropWhile p = l := by
  cases l with
  | nil => rfl
  | cons a t => simp [List.dropWhile, h a (List.mem_cons_self a t)]

lemma dropWhile_append_of_ne_nil (p : Char → Bool) (l1 l2 : List Char)
    (h : l1.dropWhile p ≠ []) :
    (l1 ++ l2).dropWhile p = l1.dropWhile p ++ l2 := by
  induction l1 with
  | nil => simp [List.dropWhile] at h
  | cons c t ih =>
    by_cases hc : p c
    · simp only [List.dropWhile, hc, if_true, cond_true, List.cons_append] at h ⊢
      simp [List.dropWhile, hc]
      exact ih h
    · simp [List.dropWhile, hc]

lemma dropWhile_ne_nil_of_mem (p : Char → Bool) (l : List Char) (c : Char)
    (hc : c ∈ l) (hpc : p c = false) : l.dropWhile p ≠ [] := by
  induction l with
  | nil => simp at hc
  | cons a t ih =>
    by_cases ha : p a
    · rcases List.mem_cons.mp hc with rfl | h'
      · rw [ha] at hpc
        cases hpc
      · simp only [List.dropWhile, ha]
        exact ih h'
    · simp [List.dropWhile, ha]

lemma dropWhile_head_false (p : Char → Bool) (l : List Char) (c : Char) (cs : List Char)
    (h : l.dropWhile p = c :: cs) : p c = false := by
  induction l with
  | nil => simp [List.dropWhile] at h
  | cons a t ih =>
    by_cases ha : p a
    · simp only [List.dropWhile, ha] at h
      exact ih h
    · simp only [List.dropWhile, ha] at h
      injection h with h1 h2
      subst h1
      simpa using ha

lemma collapseWS_cons_not_ws (c : Char) (cs : List Char) (h : jsWhitespace c = false) :
    collapseWS (c :: cs) = c :: collapseWS cs := by
  cases cs with
  | nil => simp [collapseWS, h]
  | cons c2 t => simp [collapseWS, h]

lemma collapseWS_cons_ws (cs : List Char) :
    ∀ c, jsWhitespace c = true →
      collapseWS (c :: cs) = ' ' :: collapseWS (cs.dropWhile jsWhitespace) := by
  induction cs with
  | nil =>
    intro c h
    simp [collapseWS, h, List.dropWhile]
  | cons c2 t ih =>
    intro c h
    by_cases h2 : jsWhitespace c2
    · have e1 : collapseWS (c :: c2 :: t) = collapseWS (c2 :: t) := by
        simp [collapseWS, h, h2]
      rw [e1, ih c2 h2]
      simp [List.dropWhile, h2]
    · have e1 : collapseWS (c :: c2 :: t) = ' ' :: collapseWS (c2 :: t) := by
        simp [collapseWS, h, h2]
      rw [e1]
      simp [List.dropWhile, h2]

lemma collapseWS_append_word (w t : List Char)
    (hw : ∀ c ∈ w, jsWhitespace c = false) :
    collapseWS (w ++ t) = w ++ collapseWS t := by
  induction w with
  | nil => simp
  | cons c w' ih =>
    have hc : jsWhitespace c = false := hw c (List.mem_cons_self c w')
    have hw' : ∀ x ∈ w', jsWhitespace x = false :=
      fun x hx => hw x (List.mem_cons_of_mem c hx)
    simp only [List.cons_append]
    rw [collapseWS_cons_not_ws c _ hc, ih hw']

lemma wordsWS_cons_ws (c : Char) (cs : List Char) (h : jsWhitespace c = true) :
    wordsWS (c :: cs) = wordsWS cs := by
  rw [wordsWS]
  simp [h]

lemma wordsWS_cons_not_ws (c : Char) (cs : List Char) (h : jsWhitespace c = false) :
    wordsWS (c :: cs) = (c :: cs.takeWhile (fun x => !jsWhitespace x)) ::
      wordsWS (cs.dropWhile (fun x => !jsWhitespace x)) := by
  rw [wordsWS]
  simp [h]

lemma wordsWS_dropWhile (cs : List Char) :
    wordsWS (cs.dropWhile jsWhitespace) = wordsWS cs := by
  induction cs with
  | nil => simp [List.dropWhile]
  | cons c t ih =>
    by_cases h : jsWhitespace c
    · rw [wordsWS_cons_ws c t h]
      simp only [List.dropWhile, h, if_true, cond_true]
      exact ih
    · simp [List.dropWhile, h]

lemma trimWS_space_cons (l : List Char) : trimWS (' ' :: l) = trimWS l := by
  have hsp : jsWhitespace ' ' = true := rfl
  simp [trimWS, List.dropWhile, hsp]

lemma trimWS_no_ws (l : List Char) (h : ∀ c ∈ l, jsWhitespace c = false) :
    trimWS l = l := by
  have h1 : l.dropWhile jsWhitespace = l := dropWhile_all_false _ l h
  have h2 : l.reverse.dropWhile jsWhitespace = l.reverse :=
    dropWhile_all_false _ l.reverse (fun c hc => h c (List.mem_reverse.mp hc))
  simp [trimWS, dropTrailingWS, h1, h2]

lemma trimWS_word_trailing_space (c : Char) (w' : List Char)
    (hc : jsWhitespace c = false) (hw' : ∀ x ∈ w', jsWhitespace x = false) :
    trimWS ((c :: w') ++ [' ']) = c :: w' := by
  have hall : ∀ x ∈ w'.reverse ++ [c], jsWhitespace x = false := by
    intro x hx
    rcases List.mem_append.mp hx with h' | h'
    · exact hw' x (List.mem_reverse.mp h')
    · simp only [List.mem_singleton] at h'
      subst h'
      exact hc
  have hlead : ((c :: w') ++ [' ']).dropWhile jsWhitespace = (c :: w') ++ [' '] := by
    simp [List.dropWhile, hc]
  have hrev : ((c :: w') ++ [' ']).reverse = ' ' :: (w'.reverse ++ [c]) := by
    simp
  have hsp : jsWhitespace ' ' = true := rfl
  rw [trimWS, hlead, dropTrailingWS, hrev]
  simp only [List.dropWhile, hsp, if_true, cond_true]
  rw [dropWhile_all_false _ _ hall]
  simp

lemma trimWS_word_space (c : Char) (w' : List Char) (t : Char) (Y' : List Char)
    (hc : jsWhitespace c = false) (hw' : ∀ x ∈ w', jsWhitespace x = false)
    (ht : jsWhitespace t = false) :
    trimWS ((c :: w') ++ ' ' :: t :: Y') = (c :: w') ++ ' ' :: trimWS (t :: Y') := by
  have hYrev : (t :: Y').reverse.dropWhile jsWhitespace ≠ [] :=
    dropWhile_ne_nil_of_mem _ _ t (by simp) ht
  have hlead : ((c :: w') ++ ' ' :: t :: Y').dropWhile jsWhitespace
      = (c :: w') ++ ' ' :: t :: Y' := by
    simp [List.dropWhile, hc]
  have hleadY : (t :: Y').dropWhile jsWhitespace = t :: Y' := by
    simp [List.dropWhile, ht]
  rw [trimWS, hlead, dropTrailingWS, List.reverse_append]
  have e2 : (' ' :: t :: Y').reverse = (t :: Y').reverse ++ [' '] := by
    simp
  rw [e2, List.append_assoc]
  rw [dropWhile_append_of_ne_nil _ _ _ hYrev]
  rw [List.reverse_append]
  rw [trimWS, hleadY, dropTrailingWS]
  simp

lemma specJoin_cons_of_ne_nil (w : List Char) (W : List (List Char)) (h : W ≠ []) :
    specJoin (w :: W) = w ++ ' ' :: specJoin W := by
  cases W with
  | nil => cases h rfl
  | cons a t => rfl

/-- The code's collapse-and-trim normalization equals the claim's
words-joined-by-single-spaces description. -/
lemma collapse_trim_eq_specJoin_words (n : ℕ) :
    ∀ l : List Char, l.length ≤ n → trimWS (collapseWS l) = specJoin (wordsWS l) := by
  induction n with
  | zero =>
    intro l hl
    have : l = [] := List.eq_nil_of_length_eq_zero (by omega)
    subst this
    simp [collapseWS, trimWS, dropTrailingWS, List.dropWhile, wordsWS, specJoin]
  | succ n ih =>
    intro l hl
    cases l with
    | nil => simp [collapseWS, trimWS, dropTrailingWS, List.dropWhile, wordsWS, specJoin]
    | cons c cs =>
      have hcs : cs.length ≤ n := by
        simp only [List.length_cons] at hl
        omega
      by_cases hc : jsWhitespace c
      · rw [collapseWS_cons_ws cs c hc, trimWS_space_cons, wordsWS_cons_ws c cs hc,
          ← wordsWS_dropWhile cs]
        exact ih _ (le_trans (length_dropWhile_le _ cs) hcs)
      · have hc' : jsWhitespace c = false := by simpa using hc
        have hw' : ∀ x ∈ cs.takeWhile (fun x => !jsWhitespace x), jsWhitespace x = false := by
          intro x hx
          have := List.mem_takeWhile_imp hx
          simpa using this
        have hsplitcs : cs.takeWhile (fun x => !jsWhitespace x) ++
            cs.dropWhile (fun x => !jsWhitespace x) = cs :=
          List.takeWhile_append_dropWhile _ _
        have hcollapse : collapseWS (c :: cs) =
            c :: (cs.takeWhile (fun x => !jsWhitespace x) ++
              collapseWS (cs.dropWhile (fun x => !jsWhitespace x))) := by
          rw [collapseWS_cons_not_ws c cs hc']
          conv_lhs => rw [← hsplitcs]
          rw [collapseWS_append_word _ _ hw']
        rw [wordsWS_cons_not_ws c cs hc', hcollapse]
        rcases hz : cs.dropWhile (fun x => !jsWhitespace x) with _ | ⟨s, z'⟩
        · simp only [collapseWS, List.append_nil]
          rw [trimWS_no_ws (c :: cs.takeWhile (fun x => !jsWhitespace x)) ?_]
          · simp [wordsWS, specJoin]
          · intro x hx
            rcases List.mem_cons.mp hx with rfl | h'
            · exact hc'
            · exact hw' x h'
        · have hs : jsWhitespace s = true := by
            have := dropWhile_head_false (fun x => !jsWhitespace x) cs s z' hz
            simpa using this
          have hzlen : z'.length ≤ n := by
            have h1 : (cs.dropWhile (fun x => !jsWhitespace x)).length ≤ cs.length :=
              length_dropWhile_le _ cs
            rw [hz] at h1
            simp only [List.length_cons] at h1
            omega
          rw [collapseWS_cons_ws z' s hs]
          rcases hz2 : z'.dropWhile jsWhitespace with _ | ⟨t, z2'⟩
          · simp only [collapseWS]
            have e : c :: (cs.takeWhile (fun x => !jsWhitespace x) ++ [' '])
                = (c :: cs.takeWhile (fun x => !jsWhitespace x)) ++ [' '] := by
              simp
            rw [e, trimWS_word_trailing_space c _ hc' hw']
            have hwz : wordsWS (s :: z') = [] := by
              rw [wordsWS_cons_ws s z' hs, ← wordsWS_dropWhile z', hz2]
              rw [wordsWS]
            rw [hwz]
            rfl
          · have ht : jsWhitespace t = false :=
              dropWhile_head_false jsWhitespace z' t z2' hz2
            rw [collapseWS_cons_not_ws t z2' ht]
            have e : c :: (cs.takeWhile (fun x => !jsWhitespace x) ++
                  (' ' :: t :: collapseWS z2'))
                = (c :: cs.takeWhile (fun x => !jsWhitespace x)) ++
                  ' ' :: t :: collapseWS z2' := by
              simp
            rw [e, trimWS_word_space c _ t (collapseWS z2') hc' hw' ht]
            have ihz2 : trimWS (collapseWS (t :: z2')) = specJoin (wordsWS (t :: z2')) := by
              apply ih
              have h1 : (z'.dropWhile jsWhitespace).length ≤ z'.length :=
                length_dropWhile_le _ z'
              rw [hz2] at h1
              simp only [List.length_cons] at h1 ⊢
              omega
            have hcoll3 : collapseWS (t :: z2') = t :: collapseWS z2' :=
              collapseWS_cons_not_ws t z2' ht
            rw [← hcoll3, ihz2]
            have hwz : wordsWS (s :: z') = wordsWS (t :: z2') := by
              rw [wordsWS_cons_ws s z' hs, ← wordsWS_dropWhile z', hz2]
            rw [hwz]
            have hne : wordsWS (t :: z2') ≠ [] := by
              rw [wordsWS_cons_not_ws t z2' ht]
              simp
            rw [specJoin_cons_of_ne_nil _ _ hne]

lemma normalizeAnswer_eq_claimNormalize (s : List Char) :
    normalizeAnswer s = claimNormalize s :=
  collapse_trim_eq_specJoin_words (s.map Char.toLower).length _ (le_refl _)

/-- C10: isCorrectAnswer is false whenever either argument is empty (in
particular when both are), so a challenge whose stored answer is empty can
never be answered correctly; for non-empty inputs it is true exactly when
the two strings agree after lowercasing, collapsing whitespace runs to
single spaces, and trimming (stated as: their whitespace-separated word
sequences, lowercased and joined by single spaces, coincide). -/
theorem isCorrectAnswer_spec :
    (∀ u c : List Char, u = [] ∨ c = [] → isCorrectAnswer u c = false) ∧
    isCorrectAnswer [] [] = false ∧
    (∀ u c : List Char, u ≠ [] → c ≠ [] →
      (isCorrectAnswer u c = true ↔ claimNormalize u = claimNormalize c)) := by
  refine ⟨?_, rfl, ?_⟩
  · intro u c h
    rcases h with rfl | rfl
    · simp [isCorrectAnswer]
    · simp [isCorrectAnswer]
  · intro u c hu hc
    have hu' : u.isEmpty = false := by
      cases u with
      | nil => cases hu rfl
      | cons a t => rfl
    have hc' : c.isEmpty = false := by
      cases c with
      | nil => cases hc rfl
      | cons a t => rfl
    simp [isCorrectAnswer, hu', hc', normalizeAnswer_eq_claimNormalize]

/-- Witness for C10: a concrete pair differing only in case and whitespace
is accepted, and an empty submission is rejected. -/
theorem isCorrectAnswer_spec_witness :
    isCorrectAnswer ['F', 'o', 'o', ' ', ' ', 'B', 'a', 'r']
        ['f', 'o', 'o', ' ', 'b', 'a', 'r', ' '] = true ∧
    isCorrectAnswer ['x'] [] = false :=
  ⟨(isCorrectAnswer_spec.2.2 ['F', 'o', 'o', ' ', ' ', 'B', 'a', 'r']
      ['f', 'o', 'o', ' ', 'b', 'a', 'r', ' '] (by decide) (by decide)).mpr
      (by rw [← normalizeAnswer_eq_claimNormalize, ← normalizeAnswer_eq_claimNormalize]
          decide),
   isCorrectAnswer_spec.1 ['x'] [] (Or.inr rfl)⟩

/- ===== Progress rows and the hint / submission flows =====
   The database service (services/database.js) is not under src/; its row
   operations are modelled from the spec (section 4.4). The command flows
   that call them (commands/submit.js, commands/admin.js) are under src/
   and are embedded from that source. -/

/-- A Progress row for one (user, challenge) pair (spec section 3). -/
structure Progress where
  hints_used : ℕ
  attempts : ℕ
  completed : Bool
  points_earned : Option ℤ
  deriving Repr, DecidableEq

/-- The zeroed row created on first interaction (spec section 4.4 getOrInit). -/
def freshProgress : Progress :=
  { hints_used := 0, attempts := 0, completed := false, points_earned := none }

/-- Modelled from the spec: recordAttempt of the database service (not under
src/, spec section 4.4) increments attempts unconditionally. -/
def recordAttempt (p : Progress) : Progress :=
  { p with attempts := p.attempts + 1 }

/-- Modelled from the spec: complete of the database service (not under src/,
spec section 4.4) sets completed and stores the points. -/
def completeGame (p : Progress) (points : ℤ) : Progress :=
  { p with completed := true, points_earned := some points }

inductive HintError
  | alreadyCompleted
  deriving Repr, DecidableEq

/-- Modelled from the spec: consumeHint of the database service (not under
src/, spec section 4.4) fails with AlreadyCompleted when completed is true,
otherwise increments hints_used and returns the new count. -/
def consumeHint (p : Progress) : Except HintError (Progress × ℕ) :=
  if p.completed then .error .alreadyCompleted
  else .ok ({ p with hints_used := p.hints_used + 1 }, p.hints_used + 1)

inductive SubmitOutcome
  | alreadyCompleted
  | incorrect
  | correct (pointsEarned : ℤ)
  deriving Repr, DecidableEq

/-- JavaScript `progress && progress.completed` (submit.js line 66). -/
def progressCompleted : Option Progress → Bool
  | none => false
  | some p => p.completed

/-- The state core of execute in commands/submit.js (lines 60-247) for a
registered user and an existing challenge: refuse if the row is already
completed (lines 65-72); otherwise record the attempt (line 110), then
evaluate correctness (line 113); on a correct answer compute points from the
previously fetched hints_used (lines 117-119) and complete the row
(line 123). -/
def submitAnswer (cfg : PointsConfig) (g : Game) (progress : Option Progress)
    (userAnswer : List Char) : Progress × SubmitOutcome :=
  let p0 := progress.getD freshProgress
  if progressCompleted progress then (p0, .alreadyCompleted)
  else
    let p1 := recordAttempt p0
    if isCorrectAnswer userAnswer g.answer then
      let hintsUsed := match progress with
        | some p => p.hints_used
        | none => 0
      let pts := calculatePoints cfg hintsUsed g.difficulty
      (completeGame p1 pts, .correct pts)
    else (p1, .incorrect)

inductive AdminHintError
  | alreadyCompleted
  deriving Repr, DecidableEq

/-- Modelled from the spec: adminManageHints of the database service (not
under src/); per the admin command's option semantics, action 1 adds one
hint, action -1 removes one, any other value resets to zero. -/
def adminManageHints (p : Progress) (action : ℤ) : Progress :=
  if action = 1 then { p with hints_used := p.hints_used + 1 }
  else if action = -1 then { p with hints_used := p.hints_used - 1 }
  else { p with hints_used := 0 }

/-- The state core of the manage-hints subcommand of commands/admin.js
(lines 238-360): refuse when the row is already completed (lines 264-273),
otherwise apply the hint change. -/
def adminManageHintsCommand (progress : Option Progress) (action : ℤ) :
    Except AdminHintError Progress :=
  if progressCompleted progress then .error .alreadyCompleted
  else .ok (adminManageHints (progress.getD freshProgress) action)

/- ===== Claim C8 ===== -/

/-- C8: on a completed Progress row, consuming a hint always fails with
AlreadyCompleted whatever hints_used is, answer submission returns the row
unchanged, and admin hint management fails, so no operation changes the
row's hints_used or attempts counters. -/
theorem completed_row_frozen (p : Progress) (hcomp : p.completed = true) :
    consumeHint p = .error .alreadyCompleted ∧
    (∀ (cfg : PointsConfig) (g : Game) (ans : List Char),
      submitAnswer cfg g (some p) ans = (p, .alreadyCompleted)) ∧
    (∀ action : ℤ, adminManageHintsCommand (some p) action =
      .error .alreadyCompleted) := by
  refine ⟨?_, ?_, ?_⟩
  · simp [consumeHint, hcomp]
  · intro cfg g ans
    simp [submitAnswer, progressCompleted, hcomp]
  · intro action
    simp [adminManageHintsCommand, progressCompleted, hcomp]

/-- Witness for C8 on a concrete completed row with nonzero counters. -/
theorem completed_row_frozen_witness :
    consumeHint { hints_used := 3, attempts := 5, completed := true,
                  points_earned := some 75 } = .error .alreadyCompleted ∧
    (∀ (cfg : PointsConfig) (g : Game) (ans : List Char),
      submitAnswer cfg g (some { hints_used := 3, attempts := 5, completed := true,
                                 points_earned := some 75 }) ans =
        ({ hints_used := 3, attempts := 5, completed := true, points_earned := some 75 },
          .alreadyCompleted)) ∧
    (∀ action : ℤ, adminManageHintsCommand
        (some { hints_used := 3, attempts := 5, completed := true,
                points_earned := some 75 }) action = .error .alreadyCompleted) :=
  completed_row_frozen _ rfl

/- ===== Claim C9 ===== -/

/-- C9: a submission on a not-yet-completed row increments attempts exactly
once, for correct and incorrect answers alike; the attempts value of the
resulting row does not depend on the submitted answer, since the attempt is
recorded before correctness is evaluated. -/
theorem submit_increments_attempts (cfg : PointsConfig) (g : Game)
    (progress : Option Progress) (ans : List Char)
    (hnotdone : progressCompleted progress = false) :
    (submitAnswer cfg g progress ans).1.attempts =
      (progress.getD freshProgress).attempts + 1 ∧
    (∀ ans2 : List Char, (submitAnswer cfg g progress ans).1.attempts =
      (submitAnswer cfg g progress ans2).1.attempts) := by
  constructor
  · by_cases hok : isCorrectAnswer ans g.answer <;>
      simp [submitAnswer, hnotdone, recordAttempt, completeGame, hok]
  · intro ans2
    by_cases hok : isCorrectAnswer ans g.answer <;>
      by_cases hok2 : isCorrectAnswer ans2 g.answer <;>
      simp [submitAnswer, hnotdone, recordAttempt, completeGame, hok, hok2]

/-- Witness for C9: a concrete in-progress row goes from 4 to 5 attempts on
a wrong answer, and the attempts value matches what a correct answer yields. -/
theorem submit_increments_attempts_witness :
    (submitAnswer defaultPointsConfig sampleGame
        (some { hints_used := 1, attempts := 4, completed := false,
                points_earned := none }) ['n', 'o']).1.attempts =
      ((some { hints_used := 1, attempts := 4, completed := false,
               points_earned := none } : Option Progress).getD freshProgress).attempts + 1 ∧
    (∀ ans2 : List Char, (submitAnswer defaultPointsConfig sampleGame
        (some { hints_used := 1, attempts := 4, completed := false,
                points_earned := none }) ['n', 'o']).1.attempts =
      (submitAnswer defaultPointsConfig sampleGame
        (some { hints_used := 1, attempts := 4, completed := false,
                points_earned := none }) ans2).1.attempts) :=
  submit_increments_attempts defaultPointsConfig sampleGame _ ['n', 'o'] rfl

end JudgeBot
